import Mathlib

/-!
Verification of the balanced-energy-ratio core of `floris/tools/energy_ratio.py`.

Shallow embedding conventions:
* numpy float arrays are `List ℚ` (the claims under study only exercise exact
  arithmetic, never floating-point rounding);
* a numpy scalar that can be `NaN` is `Option ℚ` (`none` = `NaN`), and a function
  whose numpy original returns a tuple of eight `NaN`s returns `none`;
* integer speed buckets are `ℕ` (wind speeds are non-negative; `astype(int)`
  truncates a non-negative float to its floor);
* `np.random.randint` is modelled by an explicit stream `ρ : ℕ → ℕ` of raw draws,
  reduced modulo the requested bound, consumed left to right;
* `np.log10`, a transcendental float function, is passed as an explicit parameter
  `log10 : ℕ → ℚ`; at the powers of ten exercised by the claims its exact values
  are the natural-number exponents, provided by `log10exact` below.
-/

/-- Sequence a list of optional rationals: `some` of the list of values when every
entry is present, `none` as soon as one entry is `NaN`.  Models the fact that
`np.percentile` of an array containing `NaN` yields `NaN`. -/
def seqO : List (Option ℚ) → Option (List ℚ)
  | [] => some []
  | none :: _ => none
  | some x :: rest => (seqO rest).map (fun l => x :: l)

/-- Kernel-computable floor of a rational (Euclidean division of numerator by
denominator; equal to `⌊q⌋`, see `ratFloor_eq_floor`). -/
def ratFloor (q : ℚ) : ℤ := q.num / (q.den : ℤ)

/-- Model of `np.round`: round half to even (banker's rounding). -/
def npRound (q : ℚ) : ℤ :=
  let f := ratFloor q
  let r := q - (f : ℚ)
  if r < 1/2 then f
  else if 1/2 < r then f + 1
  else if f % 2 = 0 then f else f + 1

/-- Model of `np.percentile` with its default linear interpolation: sort the data, take the
fractional position `q/100 * (m-1)`, and interpolate between the two neighbouring
order statistics. -/
def percentile (xs : List ℚ) (q : ℚ) : ℚ :=
  let s := List.insertionSort (· ≤ ·) xs
  let m := s.length
  let pos : ℚ := q * ((m : ℚ) - 1) / 100
  let i : ℤ := ratFloor pos
  let lo := s.getD i.toNat 0
  let hi := s.getD (i.toNat + 1) lo
  lo + (pos - (i : ℚ)) * (hi - lo)

/-- The relevant classes of Python values reaching `_convert_to_numpy_array`:
a numpy `ndarray`, an object exposing a `.values` attribute (e.g. a pandas
`Series`), or a plain Python sequence of floats with neither. -/
inductive PyInput where
  | ndarray (xs : List ℚ)
  | withValues (xs : List ℚ)
  | pylist (xs : List ℚ)
deriving DecidableEq

/-- The function `_convert_to_numpy_array`: `hasattr(series, 'values')` first, then the
`isinstance(series, np.ndarray)` branch; any other input falls off the end of the
function, which in Python returns `None`. -/
def convert_to_numpy_array : PyInput → Option (List ℚ)
  | PyInput.withValues xs => some xs
  | PyInput.ndarray xs => some xs
  | PyInput.pylist _ => none

/-- The function `_calculate_bootstrap_iterations`:
`int(np.round(max(min(n * np.log10(n), 10000), 2000)))`. -/
def calculate_bootstrap_iterations (log10 : ℕ → ℚ) (n : ℕ) : ℕ :=
  let maximum : ℚ := 10000
  let minimum : ℚ := 2000
  (npRound (max (min ((n : ℚ) * log10 n) maximum) minimum)).toNat

/-- Fueled base-10 integer logarithm (structural recursion so that the kernel can
evaluate it). -/
def natLog10Fuel : ℕ → ℕ → ℕ
  | 0, _ => 0
  | fuel + 1, n => if 10 ≤ n then 1 + natLog10Fuel fuel (n / 10) else 0

/-- The integer part of `log10 n`.  `np.log10` is a transcendental float function;
at the powers of ten exercised by the claims it returns exactly this value. -/
def log10exact (n : ℕ) : ℚ := (natLog10Fuel n n : ℚ)

/-- The two interval-construction methods of `_calculate_lower_and_upper_bound`,
selected in the source by comparison with the string `'simple_percentile'`. -/
inductive BoundMethod where
  | simplePercentile
  | reflected
deriving DecidableEq

/-- The function `_calculate_lower_and_upper_bound`: under `simple_percentile`,
`lower, upper = np.percentile(bootstrap_array, percentiles)` — the first requested
percentile becomes `lower`, the second `upper`; otherwise the reflected (basic
bootstrap) bounds `2*central_estimate - np.percentile(...)`. -/
def calculate_lower_and_upper_bound (bootstrapArray : List ℚ) (percentiles : ℚ × ℚ)
    (centralEstimate : ℚ) (method : BoundMethod) : ℚ × ℚ :=
  match method with
  | BoundMethod.simplePercentile =>
      (percentile bootstrapArray percentiles.1, percentile bootstrapArray percentiles.2)
  | BoundMethod.reflected =>
      (2 * centralEstimate - percentile bootstrapArray percentiles.1,
       2 * centralEstimate - percentile bootstrapArray percentiles.2)

/-- The function `_get_confidence_bounds`: `[50 + 0.5 * confidence, 50 - 0.5 * confidence]`. -/
def get_confidence_bounds (confidence : ℚ) : ℚ × ℚ :=
  (50 + 0.5 * confidence, 50 - 0.5 * confidence)

/-- The eight-component return value of `energy_ratio` in the defined case. -/
structure ERResult where
  ratioBase : ℚ
  ratioCon : ℚ
  ratioDiff : ℚ
  pChange : ℚ
  countsBase : ℕ
  countsCon : ℕ
  countsDiff : ℕ
  countsPchange : ℕ
deriving DecidableEq

/-- Number of samples falling in the integer speed bucket `k`
(one entry of the `counts` returned by `np.unique(ws, return_counts=True)`). -/
def bucketCount (ws : List ℕ) (k : ℕ) : ℕ := ws.countP (fun x => decide (x = k))

/-- The intersection `np.intersect1d(np.unique(ws_base), np.unique(ws_con))` viewed as the set of
speed buckets present in both regimes. -/
def wsIntersect (wsBase wsCon : List ℕ) : List ℕ :=
  wsBase.dedup.filter (fun k => decide (k ∈ wsCon.dedup))

/-- One regime's `(ref_pow, test_pow, ws)` rows masked down to the rows whose speed
bucket lies in the intersection (`np.isin(ws, ws_unique)`). -/
def maskedTriples (ref test : List ℚ) (ws : List ℕ) (inter : List ℕ) :
    List (ℚ × ℚ × ℕ) :=
  (ref.zip (test.zip ws)).filter (fun r => decide (r.2.2 ∈ inter))

/-- The masked wind-speed column. -/
def maskedWs (ref test : List ℚ) (ws : List ℕ) (inter : List ℕ) : List ℕ :=
  (maskedTriples ref test ws inter).map (fun r => r.2.2)

/-- Per-bucket weight for baseline samples:
`counts_con / (counts_base + counts_con)` over the masked data. -/
def weightBase (wsB wsC : List ℕ) (k : ℕ) : ℚ :=
  (bucketCount wsC k : ℚ) / ((bucketCount wsB k : ℚ) + (bucketCount wsC k : ℚ))

/-- Per-bucket weight for controlled samples:
`counts_base / (counts_base + counts_con)` over the masked data. -/
def weightCon (wsB wsC : List ℕ) (k : ℕ) : ℚ :=
  (bucketCount wsB k : ℚ) / ((bucketCount wsB k : ℚ) + (bucketCount wsC k : ℚ))

/-- The lookup table `lut` built by `lut[ws_unique] = weights` on a zero array:
buckets in the intersection carry their weight, all others read zero. -/
def lutWeight (inter : List ℕ) (w : ℕ → ℚ) (k : ℕ) : ℚ :=
  if k ∈ inter then w k else 0

/-- The array `weight_array_base = lut_base[ws_base]`: one weight per masked baseline sample. -/
def weightArrayBase (inter wsB wsC : List ℕ) : List ℚ :=
  wsB.map (lutWeight inter (weightBase wsB wsC))

/-- The array `weight_array_con = lut_con[ws_con]`: one weight per masked controlled sample. -/
def weightArrayCon (inter wsB wsC : List ℕ) : List ℚ :=
  wsC.map (lutWeight inter (weightCon wsB wsC))

/-- The function `energy_ratio`: the balanced energy ratio for one wind-direction bin.
Returns `none` (the tuple of eight `NaN`s) when baseline and controlled share no
speed bucket; otherwise masks both regimes to the common buckets, weights each
sample by the other regime's prevalence in its bucket, and forms the weighted
test/reference power ratios.  (In ℚ a division by a zero weighted reference sum
yields `0` where numpy floats would give `±inf`/`NaN`; no claim under study
exercises that branch.) -/
def energy_ratio (refPowBase testPowBase : List ℚ) (wsBase : List ℕ)
    (refPowCon testPowCon : List ℚ) (wsCon : List ℕ) : Option ERResult :=
  let wsUnique := wsIntersect wsBase wsCon
  if wsUnique.isEmpty then none
  else
    let rowsB := maskedTriples refPowBase testPowBase wsBase wsUnique
    let rowsC := maskedTriples refPowCon testPowCon wsCon wsUnique
    let wsB := maskedWs refPowBase testPowBase wsBase wsUnique
    let wsC := maskedWs refPowCon testPowCon wsCon wsUnique
    let wArrB := weightArrayBase wsUnique wsB wsC
    let wArrC := weightArrayCon wsUnique wsB wsC
    let weightSumRefBase := (List.zipWith (fun r w => r.1 * w) rowsB wArrB).sum
    let weightSumTestBase := (List.zipWith (fun r w => r.2.1 * w) rowsB wArrB).sum
    let weightSumRefCon := (List.zipWith (fun r w => r.1 * w) rowsC wArrC).sum
    let weightSumTestCon := (List.zipWith (fun r w => r.2.1 * w) rowsC wArrC).sum
    let ratioBase := weightSumTestBase / weightSumRefBase
    let ratioCon := weightSumTestCon / weightSumRefCon
    let ratioDiff := ratioCon - ratioBase
    let pChange := 100 * ratioDiff / ratioBase
    some { ratioBase := ratioBase, ratioCon := ratioCon, ratioDiff := ratioDiff,
           pChange := pChange, countsBase := rowsB.length, countsCon := rowsC.length,
           countsDiff := min rowsB.length rowsC.length,
           countsPchange := min rowsB.length rowsC.length }

/-- Truncation of a (non-negative) wind speed to its integer bucket,
`ws.astype(int)` on one entry. -/
def toBucket (q : ℚ) : ℕ := (ratFloor q).toNat

/-- The wind-direction test of the binning mask:
`(d >= center - radius) & (d < center + radius)`. -/
def inBin (center radius d : ℚ) : Bool :=
  decide (center - radius ≤ d) && decide (d < center + radius)

/-- The per-sample boolean direction mask `wind_dir_mask` for one bin. -/
def dirMask (wd : List ℚ) (center radius : ℚ) : List Bool :=
  wd.map (inBin center radius)

/-- Numpy boolean-mask indexing `xs[mask]`: keep the entries at `true` positions. -/
def applyMask (xs : List ℚ) (mask : List Bool) : List ℚ :=
  ((xs.zip mask).filter (fun p => p.2)).map (fun p => p.1)

/-- The radius `wind_direction_bin_radius = (1 + p_overlap/100) * (bins[1] - bins[0]) / 2`,
with the overlap percentage defaulting to `0` when the caller passes `None`. -/
def binRadius (bins : List ℚ) (overlap : Option ℚ) : ℚ :=
  (1 + (overlap.getD 0) / 100) * (bins.getD 1 0 - bins.getD 0 0) / 2

/-- The draw `np.random.randint(n, size=n)`: the next `n` raw draws of the stream `ρ`
starting at position `c`, each reduced modulo `n`. -/
def drawIdx (n : ℕ) (ρ : ℕ → ℕ) (c : ℕ) : List ℕ :=
  (List.range n).map (fun j => ρ (c + j) % n)

/-- Numpy integer fancy indexing `xs[idx]` (all indices drawn below `xs.length`;
the default `d` is never reached on the paths the pipeline takes). -/
def sampleAt {α : Type} (xs : List α) (d : α) (idx : List ℕ) : List α :=
  idx.map (fun i => xs.getD i d)

/-- The arguments of `calculate_balanced_energy_ratio` (after conversion of the
eight sample arrays to numeric arrays). -/
structure PipeInput where
  refPowBase : List ℚ
  testPowBase : List ℚ
  wsBase : List ℚ
  wdBase : List ℚ
  refPowCon : List ℚ
  testPowCon : List ℚ
  wsCon : List ℚ
  wdCon : List ℚ
  bins : List ℚ
  confidence : ℚ
  nBoostrap : Option ℕ
  overlap : Option ℚ
deriving DecidableEq

/-- The Python exception the pipeline can raise: the `IndexError` from
`wind_direction_bins[1]` when fewer than two bin centers are supplied. -/
inductive PipeError where
  | indexOutOfBounds
deriving DecidableEq

/-- One wind-direction bin's slice of the sixteen output arrays
(`none` = `NaN`). -/
structure BinOut where
  ratioBase : Option ℚ
  lowerRatioBase : Option ℚ
  upperRatioBase : Option ℚ
  countsRatioBase : Option ℚ
  ratioCon : Option ℚ
  lowerRatioCon : Option ℚ
  upperRatioCon : Option ℚ
  countsRatioCon : Option ℚ
  diff : Option ℚ
  lowerDiff : Option ℚ
  upperDiff : Option ℚ
  countsDiff : Option ℚ
  pChange : Option ℚ
  lowerPChange : Option ℚ
  upperPChange : Option ℚ
  countsPChange : Option ℚ
deriving DecidableEq

/-- The `NaN` slice every bin starts from (`np.zeros(...) * np.nan`). -/
def BinOut.nan : BinOut :=
  { ratioBase := none, lowerRatioBase := none, upperRatioBase := none,
    countsRatioBase := none, ratioCon := none, lowerRatioCon := none,
    upperRatioCon := none, countsRatioCon := none, diff := none, lowerDiff := none,
    upperDiff := none, countsDiff := none, pChange := none, lowerPChange := none,
    upperPChange := none, countsPChange := none }

/-- The bootstrap loop of `calculate_balanced_energy_ratio` for one processed
bin: `k` iterations, each drawing an independent resample-with-replacement of the
baseline triple and of the controlled triple and re-running `energy_ratio`. -/
def bootstrapSamples (refB testB : List ℚ) (wsB : List ℕ)
    (refC testC : List ℚ) (wsC : List ℕ) (ρ : ℕ → ℕ) (c0 k : ℕ) :
    List (Option ERResult) :=
  (List.range k).map (fun t =>
    let base := c0 + t * (refB.length + refC.length)
    let idxB := drawIdx refB.length ρ base
    let idxC := drawIdx refC.length ρ (base + refB.length)
    energy_ratio (sampleAt refB 0 idxB) (sampleAt testB 0 idxB)
      (sampleAt wsB 0 idxB) (sampleAt refC 0 idxC) (sampleAt testC 0 idxC)
      (sampleAt wsC 0 idxC))

/-- The loop body of `calculate_balanced_energy_ratio` for one bin center.
Returns the bin's output slice, a ghost record of the bootstrap iteration count
actually used (`none` when the bin is skipped), the `n_boostrap` local after the
iteration, and the stream position after the iteration. -/
def processBin (inp : PipeInput) (log10 : ℕ → ℚ) (ρ : ℕ → ℕ) (radius center : ℚ)
    (nBoot? : Option ℕ) (c0 : ℕ) : BinOut × Option ℕ × Option ℕ × ℕ :=
  let maskB := dirMask inp.wdBase center radius
  let maskC := dirMask inp.wdCon center radius
  let refB := applyMask inp.refPowBase maskB
  let testB := applyMask inp.testPowBase maskB
  let wsBq := applyMask inp.wsBase maskB
  let refC := applyMask inp.refPowCon maskC
  let testC := applyMask inp.testPowCon maskC
  let wsCq := applyMask inp.wsCon maskC
  if refB.isEmpty || refC.isEmpty then (BinOut.nan, none, nBoot?, c0)
  else
    let wsB := wsBq.map toBucket
    let wsC := wsCq.map toBucket
    let er := energy_ratio refB testB wsB refC testC wsC
    let nb := refB.length
    let nc := refC.length
    let k := match nBoot? with
      | some m => m
      | none => calculate_bootstrap_iterations log10 nb
    let bs := bootstrapSamples refB testB wsB refC testC wsC ρ c0 k
    let ps := get_confidence_bounds inp.confidence
    let bound := fun (stats : List (Option ℚ)) (central : Option ℚ) =>
      match seqO stats with
      | some vs =>
          let lu := calculate_lower_and_upper_bound vs ps (central.getD 0)
            BoundMethod.simplePercentile
          (some lu.1, some lu.2)
      | none => ((none : Option ℚ), (none : Option ℚ))
    let rB := er.map (fun r => r.ratioBase)
    let rC := er.map (fun r => r.ratioCon)
    let dA := er.map (fun r => r.ratioDiff)
    let pA := er.map (fun r => r.pChange)
    let bB := bound (bs.map (Option.map (fun r => r.ratioBase))) rB
    let bC := bound (bs.map (Option.map (fun r => r.ratioCon))) rC
    let bD := bound (bs.map (Option.map (fun r => r.ratioDiff))) dA
    let bP := bound (bs.map (Option.map (fun r => r.pChange))) pA
    ({ ratioBase := rB, lowerRatioBase := bB.1, upperRatioBase := bB.2,
       countsRatioBase := er.map (fun r => (r.countsBase : ℚ)),
       ratioCon := rC, lowerRatioCon := bC.1, upperRatioCon := bC.2,
       countsRatioCon := er.map (fun r => (r.countsCon : ℚ)),
       diff := dA, lowerDiff := bD.1, upperDiff := bD.2,
       countsDiff := er.map (fun r => (r.countsDiff : ℚ)),
       pChange := pA, lowerPChange := bP.1, upperPChange := bP.2,
       countsPChange := er.map (fun r => (r.countsPchange : ℚ)) },
     some k, some k, c0 + k * (nb + nc))

/-- The `for i, wind_direction_bin in enumerate(wind_direction_bins)` loop,
threading the (possibly mutated) `n_boostrap` local and the stream position. -/
def runBins (inp : PipeInput) (log10 : ℕ → ℚ) (ρ : ℕ → ℕ) (radius : ℚ) :
    List ℚ → Option ℕ → ℕ → List (BinOut × Option ℕ)
  | [], _, _ => []
  | center :: rest, nBoot?, c0 =>
    let r := processBin inp log10 ρ radius center nBoot? c0
    (r.1, r.2.1) :: runBins inp log10 ρ radius rest r.2.2.1 r.2.2.2

/-- The pipeline `calculate_balanced_energy_ratio`: fails with `IndexError` on
`wind_direction_bins[1]` when fewer than two bin centers are given; otherwise
processes every bin with the single radius derived from the first two centers and
returns the per-bin output slices. -/
def calculate_balanced_energy_ratio (inp : PipeInput) (log10 : ℕ → ℚ)
    (ρ : ℕ → ℕ) : Except PipeError (List BinOut) :=
  if inp.bins.length < 2 then Except.error PipeError.indexOutOfBounds
  else Except.ok
    ((runBins inp log10 ρ (binRadius inp.bins inp.overlap) inp.bins
      inp.nBoostrap 0).map (fun e => e.1))

/-- Ghost observation: the bootstrap iteration count each bin actually used
(`none` for skipped bins). -/
def usedBootCounts (inp : PipeInput) (log10 : ℕ → ℚ) (ρ : ℕ → ℕ) :
    List (Option ℕ) :=
  if inp.bins.length < 2 then []
  else (runBins inp log10 ρ (binRadius inp.bins inp.overlap) inp.bins
    inp.nBoostrap 0).map (fun e => e.2)

/-- A bin is processed (not skipped) iff both regimes have at least one sample in
its direction interval. -/
def processedBin (inp : PipeInput) (radius center : ℚ) : Bool :=
  !(applyMask inp.refPowBase (dirMask inp.wdBase center radius)).isEmpty &&
  !(applyMask inp.refPowCon (dirMask inp.wdCon center radius)).isEmpty

/-- The baseline subset size of a bin, from which an unspecified `n_boostrap` is
resolved. -/
def binLenBase (inp : PipeInput) (radius center : ℚ) : ℕ :=
  (applyMask inp.refPowBase (dirMask inp.wdBase center radius)).length

/-- The end-to-end example input of the specification: ten identical baseline
samples (`ref=100`, `test=50`, `ws=8`, `wd=270`), controlled identical except
`test=55`, a single bin center `[270]`, `confidence=95`, everything else left
unspecified. -/
def exampleSingleBin : PipeInput :=
  { refPowBase := List.replicate 10 100, testPowBase := List.replicate 10 50,
    wsBase := List.replicate 10 8, wdBase := List.replicate 10 270,
    refPowCon := List.replicate 10 100, testPowCon := List.replicate 10 55,
    wsCon := List.replicate 10 8, wdCon := List.replicate 10 270,
    bins := [270], confidence := 95, nBoostrap := none, overlap := none }

/-- The example input amended to carry two bin centers `[270, 271]`, the minimal
change that lets the radius computation `bins[1] - bins[0]` go through. -/
def exampleTwoBins : PipeInput :=
  { refPowBase := List.replicate 10 100, testPowBase := List.replicate 10 50,
    wsBase := List.replicate 10 8, wdBase := List.replicate 10 270,
    refPowCon := List.replicate 10 100, testPowCon := List.replicate 10 55,
    wsCon := List.replicate 10 8, wdCon := List.replicate 10 270,
    bins := [270, 271], confidence := 95, nBoostrap := none, overlap := none }

/-- The expected output slice of the amended example's first bin: point estimates
`ratio_base = 1/2`, `ratio_con = 11/20`, `diff = 1/20`, `pct_change = 10`, all
counts `10`, and every interval bound equal to its point estimate. -/
def exampleBinOut : BinOut :=
  { ratioBase := some (1/2), lowerRatioBase := some (1/2),
    upperRatioBase := some (1/2), countsRatioBase := some 10,
    ratioCon := some (11/20), lowerRatioCon := some (11/20),
    upperRatioCon := some (11/20), countsRatioCon := some 10,
    diff := some (1/20), lowerDiff := some (1/20), upperDiff := some (1/20),
    countsDiff := some 10, pChange := some 10, lowerPChange := some 10,
    upperPChange := some 10, countsPChange := some 10 }

/-- Concrete input for observing the `n_boostrap` carry-over: two bins `[0, 10]`
(radius `5`), baseline subset sizes `1` (bin `0`) and `2` (bin `10`), controlled
subset size `1` in each bin. -/
def carryOverInput : PipeInput :=
  { refPowBase := [1, 1, 1], testPowBase := [1, 1, 1], wsBase := [8, 8, 8],
    wdBase := [0, 10, 10], refPowCon := [1, 1], testPowCon := [1, 1],
    wsCon := [8, 8], wdCon := [0, 10], bins := [0, 10], confidence := 95,
    nBoostrap := none, overlap := none }

/-- A `log10` table that makes the bootstrap-iteration heuristic produce different
counts for the two baseline subset sizes of `carryOverInput`: `n=1` resolves to
`3000` iterations, `n=2` would resolve to `10000`. -/
def carryOverLog : ℕ → ℚ := fun n => if n = 1 then 3000 else 5000

/-- Concrete input in which every sample's direction (100) is far outside both
bins `[0, 10]`, so both bins are skipped. -/
def emptyBinInput : PipeInput :=
  { refPowBase := [1], testPowBase := [1], wsBase := [8], wdBase := [100],
    refPowCon := [1], testPowCon := [1], wsCon := [8], wdCon := [100],
    bins := [0, 10], confidence := 95, nBoostrap := none, overlap := none }

/-- Concrete input with a single bin center, for exercising the `IndexError`. -/
def singleBinInput : PipeInput :=
  { refPowBase := [1], testPowBase := [1], wsBase := [8], wdBase := [270],
    refPowCon := [1], testPowCon := [1], wsCon := [8], wdCon := [270],
    bins := [270], confidence := 95, nBoostrap := none, overlap := none }

/-- Concrete input for the bin-membership witness: bins `[270, 280]`. -/
def membershipInput : PipeInput :=
  { refPowBase := [1], testPowBase := [1], wsBase := [8], wdBase := [270],
    refPowCon := [1], testPowCon := [1], wsCon := [8], wdCon := [270],
    bins := [270, 280], confidence := 95, nBoostrap := none, overlap := none }

/-! ### Supporting lemmas -/

theorem ratFloor_eq_floor (q : ℚ) : ratFloor q = ⌊q⌋ := by
  rw [Rat.floor_def]; rfl

theorem getD_replicate {α : Type} {n i : ℕ} {a d : α} (h : i < n) :
    (List.replicate n a).getD i d = a := by
  induction n generalizing i with
  | zero => omega
  | succ n ih =>
    cases i with
    | zero => rfl
    | succ i => simpa [List.replicate_succ] using ih (by omega)

theorem getD_replicate_self {α : Type} {n i : ℕ} {a : α} :
    (List.replicate n a).getD i a = a := by
  induction n generalizing i with
  | zero => simp
  | succ n ih =>
    cases i with
    | zero => rfl
    | succ i => simp only [List.replicate_succ, List.getD_cons_succ]; exact ih

theorem seqO_replicate {k : ℕ} {x : ℚ} :
    seqO (List.replicate k (some x)) = some (List.replicate k x) := by
  induction k with
  | zero => rfl
  | succ k ih => simp [List.replicate_succ, seqO, ih]

theorem insertionSort_replicate {m : ℕ} {c : ℚ} :
    List.insertionSort (· ≤ ·) (List.replicate m c) = List.replicate m c := by
  have hp := List.perm_insertionSort (α := ℚ) (· ≤ ·) (List.replicate m c)
  have hlen : (List.insertionSort (· ≤ ·) (List.replicate m c)).length = m := by
    simp [hp.length_eq]
  refine List.eq_replicate_of_mem ?_ |>.trans (by rw [hlen])
  intro b hb
  exact List.eq_of_mem_replicate (hp.mem_iff.mp hb)

theorem percentile_replicate {m : ℕ} {c q : ℚ} (hm : 0 < m) (h0 : 0 ≤ q)
    (h1 : q ≤ 100) : percentile (List.replicate m c) q = c := by
  simp only [percentile, insertionSort_replicate, List.length_replicate]
  have hm1 : (0 : ℚ) ≤ (m : ℚ) - 1 := by
    have : (1 : ℚ) ≤ (m : ℚ) := by exact_mod_cast hm
    linarith
  set pos : ℚ := q * ((m : ℚ) - 1) / 100 with hpos
  have hpos0 : 0 ≤ pos := by positivity
  have hposle : pos ≤ (m : ℚ) - 1 := by
    rw [hpos, div_le_iff₀ (by norm_num)]
    nlinarith
  have hi0 : 0 ≤ ratFloor pos := by
    rw [ratFloor_eq_floor]
    exact Int.le_floor.mpr (by exact_mod_cast hpos0)
  have hile : ratFloor pos ≤ (m : ℤ) - 1 := by
    rw [ratFloor_eq_floor]
    have h2 : pos ≤ (((m : ℤ) - 1 : ℤ) : ℚ) := by push_cast; linarith
    calc ⌊pos⌋ ≤ ⌊(((m : ℤ) - 1 : ℤ) : ℚ)⌋ := Int.floor_le_floor h2
    _ = (m : ℤ) - 1 := Int.floor_intCast _
  have hlt : (ratFloor pos).toNat < m := by omega
  rw [getD_replicate hlt, getD_replicate_self]
  ring

theorem npRound_ge {q : ℚ} {a : ℤ} (h : (a : ℚ) ≤ q) : a ≤ npRound q := by
  have hf : a ≤ ratFloor q := by
    rw [ratFloor_eq_floor]; exact Int.le_floor.mpr h
  unfold npRound
  dsimp only
  split
  · exact hf
  · split
    · omega
    · split
      · exact hf
      · omega

theorem calculate_bootstrap_iterations_ge (log10 : ℕ → ℚ) (n : ℕ) :
    2000 ≤ calculate_bootstrap_iterations log10 n := by
  unfold calculate_bootstrap_iterations
  dsimp only
  have h : ((2000 : ℤ) : ℚ) ≤ max (min ((n : ℚ) * log10 n) 10000) 2000 := by
    exact_mod_cast le_max_right (min ((n : ℚ) * log10 n) 10000) (2000 : ℚ)
  have := npRound_ge h
  omega

theorem calculate_bootstrap_iterations_pos (log10 : ℕ → ℚ) (n : ℕ) :
    0 < calculate_bootstrap_iterations log10 n :=
  lt_of_lt_of_le (by norm_num) (calculate_bootstrap_iterations_ge log10 n)

theorem drawIdx_length (n : ℕ) (ρ : ℕ → ℕ) (c : ℕ) : (drawIdx n ρ c).length = n := by
  simp [drawIdx]

theorem drawIdx_lt {n : ℕ} (hn : 0 < n) (ρ : ℕ → ℕ) (c : ℕ) :
    ∀ i ∈ drawIdx n ρ c, i < n := by
  intro i hi
  simp only [drawIdx, List.mem_map] at hi
  obtain ⟨j, _, rfl⟩ := hi
  exact Nat.mod_lt _ hn

theorem sampleAt_replicate {α : Type} {n : ℕ} {a d : α} {idx : List ℕ}
    (h : ∀ i ∈ idx, i < n) : sampleAt (List.replicate n a) d idx = List.replicate idx.length a := by
  induction idx with
  | nil => rfl
  | cons i idx ih =>
    have hi : i < n := h i (List.mem_cons_self i idx)
    simp only [sampleAt, List.map_cons, List.length_cons, List.replicate_succ]
    rw [getD_replicate hi]
    exact congrArg (a :: ·) (ih (fun j hj => h j (List.mem_cons_of_mem i hj)))

theorem mapRange_const {α : Type} (k : ℕ) (v : α) :
    (List.range k).map (fun _ => v) = List.replicate k v := by
  simp [List.map_const']

theorem maskedWs_subset_inter {ref test : List ℚ} {ws inter : List ℕ} {k : ℕ}
    (h : k ∈ maskedWs ref test ws inter) : k ∈ inter := by
  simp only [maskedWs, maskedTriples, List.mem_map, List.mem_filter] at h
  obtain ⟨r, ⟨_, hr⟩, rfl⟩ := h
  simpa using hr

/-! ### Claim theorems -/

/-- C10: an input that is neither an `ndarray` nor an object with a `.values`
attribute (e.g. a plain Python list of floats) makes `_convert_to_numpy_array`
fall through and return `None` — it is neither treated as the sequence of floats
itself nor turned into an input-validation error — while the two recognised
classes convert to their numeric data.  `calculate_balanced_energy_ratio` applies
this conversion to each of its eight sample arrays, so such an argument is
silently replaced by `None`. -/
theorem convert_plain_list_returns_none (xs : List ℚ) :
    convert_to_numpy_array (PyInput.pylist xs) = none ∧
    (∀ ys : List ℚ, convert_to_numpy_array (PyInput.pylist xs) ≠ some ys) ∧
    convert_to_numpy_array (PyInput.ndarray xs) = some xs ∧
    convert_to_numpy_array (PyInput.withValues xs) = some xs := by
  refine ⟨rfl, ?_, rfl, rfl⟩
  intro ys h
  exact Option.noConfusion h

/-- C7: the default bootstrap iteration count is
`round(clamp(n * log10 n, 2000, 10000))` for every positive baseline-subset size
`n` (with `np.log10` supplied as a parameter), and at the sizes
`10, 100, 10000, 10000000` — where `np.log10` is exactly `1, 2, 4, 7` — the
computed counts are `2000, 2000, 10000, 10000`: all within `[2000, 10000]` and
non-decreasing in `n`. -/
theorem bootstrap_iteration_bound :
    (∀ (log10 : ℕ → ℚ) (n : ℕ),
      calculate_bootstrap_iterations log10 n
        = (npRound (max (min ((n : ℚ) * log10 n) 10000) 2000)).toNat) ∧
    log10exact 10 = 1 ∧ log10exact 100 = 2 ∧ log10exact 10000 = 4 ∧
    log10exact 10000000 = 7 ∧
    calculate_bootstrap_iterations log10exact 10 = 2000 ∧
    calculate_bootstrap_iterations log10exact 100 = 2000 ∧
    calculate_bootstrap_iterations log10exact 10000 = 10000 ∧
    calculate_bootstrap_iterations log10exact 10000000 = 10000 ∧
    2000 ≤ calculate_bootstrap_iterations log10exact 10 ∧
    calculate_bootstrap_iterations log10exact 10
      ≤ calculate_bootstrap_iterations log10exact 100 ∧
    calculate_bootstrap_iterations log10exact 100
      ≤ calculate_bootstrap_iterations log10exact 10000 ∧
    calculate_bootstrap_iterations log10exact 10000
      ≤ calculate_bootstrap_iterations log10exact 10000000 ∧
    calculate_bootstrap_iterations log10exact 10000000 ≤ 10000 := by
  refine ⟨fun _ _ => rfl, ?_⟩
  with_unfolding_all decide

/-- C3: whenever the baseline and controlled integer speed buckets are disjoint
sets (in particular when either array is empty), `energy_ratio` takes the early
`len(ws_unique) == 0` exit and returns the eight-`NaN` tuple, raising no
exception. -/
theorem energy_ratio_disjoint_nan (refPowBase testPowBase : List ℚ)
    (wsBase : List ℕ) (refPowCon testPowCon : List ℚ) (wsCon : List ℕ)
    (hdisj : ∀ k, k ∈ wsBase → k ∉ wsCon) :
    energy_ratio refPowBase testPowBase wsBase refPowCon testPowCon wsCon
      = none := by
  have hempty : wsIntersect wsBase wsCon = [] := by
    rw [wsIntersect, List.filter_eq_nil_iff]
    intro k hk
    simp only [decide_eq_true_eq, List.mem_dedup]
    exact hdisj k (List.mem_dedup.mp hk)
  rw [energy_ratio, hempty]
  rfl

/-- Witness for C3 at buckets `[8]` versus `[9]`. -/
theorem energy_ratio_disjoint_nan_witness :
    (∀ k, k ∈ [8] → k ∉ [9]) ∧
    energy_ratio [100] [50] [8] [100] [55] [9] = none :=
  ⟨by decide, energy_ratio_disjoint_nan [100] [50] [8] [100] [55] [9] (by decide)⟩

/-- C4: for a positive confidence and a non-empty bootstrap array,
`_get_confidence_bounds` requests the percentiles
`[50 + confidence/2, 50 - confidence/2]` in that order — the first strictly the
larger — and the `simple_percentile` method assigns the first requested
percentile value to `lower` and the second to `upper`. -/
theorem confidence_bounds_assignment (confidence : ℚ) (hc : 0 < confidence)
    (bootstrapArray : List ℚ) (_hbs : bootstrapArray ≠ []) (central : ℚ) :
    get_confidence_bounds confidence
      = (50 + confidence / 2, 50 - confidence / 2) ∧
    50 - confidence / 2 < 50 + confidence / 2 ∧
    calculate_lower_and_upper_bound bootstrapArray
        (get_confidence_bounds confidence) central BoundMethod.simplePercentile
      = (percentile bootstrapArray (50 + confidence / 2),
         percentile bootstrapArray (50 - confidence / 2)) := by
  have h1 : get_confidence_bounds confidence
      = (50 + confidence / 2, 50 - confidence / 2) := by
    unfold get_confidence_bounds
    norm_num [Prod.ext_iff]
    ring
  refine ⟨h1, by linarith, ?_⟩
  rw [h1]
  rfl

/-- Witness for C4 at `confidence = 95` on the bootstrap array `[1, 2, 3]`. -/
theorem confidence_bounds_assignment_witness :
    ((0 : ℚ) < 95 ∧ ([1, 2, 3] : List ℚ) ≠ []) ∧
    (get_confidence_bounds 95 = (50 + 95 / 2, 50 - 95 / 2) ∧
     (50 : ℚ) - 95 / 2 < 50 + 95 / 2 ∧
     calculate_lower_and_upper_bound [1, 2, 3] (get_confidence_bounds 95) 2
         BoundMethod.simplePercentile
       = (percentile [1, 2, 3] (50 + 95 / 2), percentile [1, 2, 3] (50 - 95 / 2))) :=
  ⟨⟨by norm_num, by simp⟩,
   confidence_bounds_assignment 95 (by norm_num) [1, 2, 3] (by simp) 2⟩

/-- C9: with fewer than two wind-direction bin centers, the radius computation
`wind_direction_bins[1] - wind_direction_bins[0]` raises `IndexError` before any
bin is processed, even though the interface accepts an arbitrary sequence of bin
centers. -/
theorem single_bin_index_error (inp : PipeInput) (log10 : ℕ → ℚ) (ρ : ℕ → ℕ)
    (h : inp.bins.length < 2) :
    calculate_balanced_energy_ratio inp log10 ρ
      = Except.error PipeError.indexOutOfBounds := by
  rw [calculate_balanced_energy_ratio, if_pos h]

/-- Witness for C9: the concrete single-bin input. -/
theorem single_bin_index_error_witness :
    singleBinInput.bins.length < 2 ∧
    calculate_balanced_energy_ratio singleBinInput log10exact (fun _ => 0)
      = Except.error PipeError.indexOutOfBounds :=
  ⟨by decide, single_bin_index_error singleBinInput log10exact (fun _ => 0) (by decide)⟩

/-- A pair drawn from a list zipped with its own image under `f` is of the form
`(a, f a)`. -/
theorem zip_map_self {α β : Type} {l : List α} {f : α → β} {p : α × β}
    (hp : p ∈ l.zip (l.map f)) : p.2 = f p.1 := by
  induction l with
  | nil => cases hp
  | cons a l ih =>
    rw [List.map_cons, List.zip_cons_cons] at hp
    rcases List.mem_cons.mp hp with h | h
    · rw [h]
    · exact ih h

/-- Each masked wind-speed entry pairs with exactly the weight the lookup table
assigns to its bucket. -/
theorem zip_weightArray {wsB wsC inter : List ℕ} {p : ℕ × ℚ}
    (hmem : ∀ k ∈ wsB, k ∈ inter)
    (hp : p ∈ wsB.zip (weightArrayBase inter wsB wsC)) :
    p.2 = weightBase wsB wsC p.1 := by
  rw [weightArrayBase] at hp
  have h1 : p.1 ∈ wsB := (List.of_mem_zip hp).1
  rw [zip_map_self hp, lutWeight, if_pos (hmem _ h1)]

/-- Con-side analogue of `zip_weightArray`. -/
theorem zip_weightArrayCon {wsB wsC inter : List ℕ} {p : ℕ × ℚ}
    (hmem : ∀ k ∈ wsC, k ∈ inter)
    (hp : p ∈ wsC.zip (weightArrayCon inter wsB wsC)) :
    p.2 = weightCon wsB wsC p.1 := by
  rw [weightArrayCon] at hp
  have h1 : p.1 ∈ wsC := (List.of_mem_zip hp).1
  rw [zip_map_self hp, lutWeight, if_pos (hmem _ h1)]

/-- C1: when baseline and controlled share at least one speed bucket, the weight
`energy_ratio` pairs with a masked baseline sample of bucket `k` is
`count_con(k) / (count_base(k) + count_con(k))`, and the weight paired with a
masked controlled sample of bucket `k` is `count_base(k) / (count_base(k) +
count_con(k))`, the counts being taken over the samples restricted to the common
buckets. -/
theorem energy_ratio_weight_formula (rb tb : List ℚ) (wb : List ℕ)
    (rc tc : List ℚ) (wc : List ℕ) (_hne : wsIntersect wb wc ≠ []) :
    (∀ p ∈ (maskedWs rb tb wb (wsIntersect wb wc)).zip
        (weightArrayBase (wsIntersect wb wc) (maskedWs rb tb wb (wsIntersect wb wc))
          (maskedWs rc tc wc (wsIntersect wb wc))),
      p.2 = (bucketCount (maskedWs rc tc wc (wsIntersect wb wc)) p.1 : ℚ)
        / ((bucketCount (maskedWs rb tb wb (wsIntersect wb wc)) p.1 : ℚ)
          + (bucketCount (maskedWs rc tc wc (wsIntersect wb wc)) p.1 : ℚ))) ∧
    (∀ p ∈ (maskedWs rc tc wc (wsIntersect wb wc)).zip
        (weightArrayCon (wsIntersect wb wc) (maskedWs rb tb wb (wsIntersect wb wc))
          (maskedWs rc tc wc (wsIntersect wb wc))),
      p.2 = (bucketCount (maskedWs rb tb wb (wsIntersect wb wc)) p.1 : ℚ)
        / ((bucketCount (maskedWs rb tb wb (wsIntersect wb wc)) p.1 : ℚ)
          + (bucketCount (maskedWs rc tc wc (wsIntersect wb wc)) p.1 : ℚ))) := by
  constructor
  · intro p hp
    exact zip_weightArray (fun k hk => maskedWs_subset_inter hk) hp
  · intro p hp
    exact zip_weightArrayCon (fun k hk => maskedWs_subset_inter hk) hp

/-- Witness for C1: buckets `[8, 8, 9]` against `[8]`; the common bucket is `8`,
each masked baseline sample carries weight `1/3` and the controlled sample `2/3`. -/
theorem energy_ratio_weight_formula_witness :
    wsIntersect [8, 8, 9] [8] ≠ [] ∧
    ((∀ p ∈ (maskedWs [100, 100, 100] [50, 50, 50] [8, 8, 9] (wsIntersect [8, 8, 9] [8])).zip
        (weightArrayBase (wsIntersect [8, 8, 9] [8])
          (maskedWs [100, 100, 100] [50, 50, 50] [8, 8, 9] (wsIntersect [8, 8, 9] [8]))
          (maskedWs [100] [55] [8] (wsIntersect [8, 8, 9] [8]))),
      p.2 = (bucketCount (maskedWs [100] [55] [8] (wsIntersect [8, 8, 9] [8])) p.1 : ℚ)
        / ((bucketCount (maskedWs [100, 100, 100] [50, 50, 50] [8, 8, 9] (wsIntersect [8, 8, 9] [8])) p.1 : ℚ)
          + (bucketCount (maskedWs [100] [55] [8] (wsIntersect [8, 8, 9] [8])) p.1 : ℚ))) ∧
     (∀ p ∈ (maskedWs [100] [55] [8] (wsIntersect [8, 8, 9] [8])).zip
        (weightArrayCon (wsIntersect [8, 8, 9] [8])
          (maskedWs [100, 100, 100] [50, 50, 50] [8, 8, 9] (wsIntersect [8, 8, 9] [8]))
          (maskedWs [100] [55] [8] (wsIntersect [8, 8, 9] [8]))),
      p.2 = (bucketCount (maskedWs [100, 100, 100] [50, 50, 50] [8, 8, 9] (wsIntersect [8, 8, 9] [8])) p.1 : ℚ)
        / ((bucketCount (maskedWs [100, 100, 100] [50, 50, 50] [8, 8, 9] (wsIntersect [8, 8, 9] [8])) p.1 : ℚ)
          + (bucketCount (maskedWs [100] [55] [8] (wsIntersect [8, 8, 9] [8])) p.1 : ℚ)))) :=
  ⟨by decide, energy_ratio_weight_formula [100, 100, 100] [50, 50, 50] [8, 8, 9]
    [100] [55] [8] (by decide)⟩

/-- C5: with at least two bin centers, the single binning radius is
`(1 + overlap_pct/100) * (bins[1] - bins[0]) / 2` (overlap defaulting to `0` when
unspecified), a sample direction `d` passes the mask of the bin centered at `c`
iff `c - r ≤ d < c + r`, position by position over the direction array, and the
pipeline applies this one radius to every bin. -/
theorem direction_bin_selection (inp : PipeInput) (log10 : ℕ → ℚ) (ρ : ℕ → ℕ)
    (h2 : 2 ≤ inp.bins.length) :
    binRadius inp.bins inp.overlap
      = (1 + (inp.overlap.getD 0) / 100) * (inp.bins.getD 1 0 - inp.bins.getD 0 0) / 2 ∧
    (∀ center d : ℚ,
      inBin center (binRadius inp.bins inp.overlap) d = true ↔
        center - binRadius inp.bins inp.overlap ≤ d ∧
          d < center + binRadius inp.bins inp.overlap) ∧
    (∀ (wd : List ℚ) (center : ℚ) (j : ℕ), j < wd.length →
      ((dirMask wd center (binRadius inp.bins inp.overlap)).getD j false = true ↔
        center - binRadius inp.bins inp.overlap ≤ wd.getD j 0 ∧
          wd.getD j 0 < center + binRadius inp.bins inp.overlap)) ∧
    calculate_balanced_energy_ratio inp log10 ρ = Except.ok
      ((runBins inp log10 ρ (binRadius inp.bins inp.overlap) inp.bins
        inp.nBoostrap 0).map (fun e => e.1)) := by
  refine ⟨rfl, ?_, ?_, ?_⟩
  · intro center d
    simp [inBin]
  · intro wd center j hj
    have hj2 : j < (dirMask wd center (binRadius inp.bins inp.overlap)).length := by
      simpa [dirMask] using hj
    rw [List.getD_eq_getElem _ _ hj2, List.getD_eq_getElem _ _ hj]
    simp [dirMask, inBin]
  · rw [calculate_balanced_energy_ratio, if_neg (by omega)]

/-- Witness for C5 at the concrete two-bin input. -/
theorem direction_bin_selection_witness :
    2 ≤ membershipInput.bins.length ∧
    (binRadius membershipInput.bins membershipInput.overlap
      = (1 + (membershipInput.overlap.getD 0) / 100)
        * (membershipInput.bins.getD 1 0 - membershipInput.bins.getD 0 0) / 2 ∧
    (∀ center d : ℚ,
      inBin center (binRadius membershipInput.bins membershipInput.overlap) d = true ↔
        center - binRadius membershipInput.bins membershipInput.overlap ≤ d ∧
          d < center + binRadius membershipInput.bins membershipInput.overlap) ∧
    (∀ (wd : List ℚ) (center : ℚ) (j : ℕ), j < wd.length →
      ((dirMask wd center (binRadius membershipInput.bins membershipInput.overlap)).getD j false = true ↔
        center - binRadius membershipInput.bins membershipInput.overlap ≤ wd.getD j 0 ∧
          wd.getD j 0 < center + binRadius membershipInput.bins membershipInput.overlap)) ∧
    calculate_balanced_energy_ratio membershipInput log10exact (fun _ => 0) = Except.ok
      ((runBins membershipInput log10exact (fun _ => 0)
        (binRadius membershipInput.bins membershipInput.overlap) membershipInput.bins
        membershipInput.nBoostrap 0).map (fun e => e.1))) :=
  ⟨by decide, direction_bin_selection membershipInput log10exact (fun _ => 0) (by decide)⟩

/-- A bin is skipped exactly when one of the two masked reference arrays is empty. -/
theorem processedBin_false_iff (inp : PipeInput) (radius center : ℚ) :
    processedBin inp radius center = false ↔
      ((applyMask inp.refPowBase (dirMask inp.wdBase center radius)).isEmpty
        || (applyMask inp.refPowCon (dirMask inp.wdCon center radius)).isEmpty) = true := by
  cases h1 : (applyMask inp.refPowBase (dirMask inp.wdBase center radius)).isEmpty <;>
    cases h2 : (applyMask inp.refPowCon (dirMask inp.wdCon center radius)).isEmpty <;>
      simp [processedBin, h1, h2]

/-- A skipped bin produces the all-`NaN` slice, uses no bootstrap draw, and leaves
the `n_boostrap` local and the stream position untouched. -/
theorem processBin_skip (inp : PipeInput) (log10 : ℕ → ℚ) (ρ : ℕ → ℕ)
    (radius center : ℚ) (nBoot? : Option ℕ) (c0 : ℕ)
    (h : processedBin inp radius center = false) :
    processBin inp log10 ρ radius center nBoot? c0 = (BinOut.nan, none, nBoot?, c0) := by
  rw [processedBin_false_iff] at h
  simp only [processBin]
  rw [if_pos h]

/-- Lemma that `runBins` emits one entry per bin center. -/
theorem runBins_length (inp : PipeInput) (log10 : ℕ → ℚ) (ρ : ℕ → ℕ) (radius : ℚ) :
    ∀ (centers : List ℚ) (st : Option ℕ) (c0 : ℕ),
      (runBins inp log10 ρ radius centers st c0).length = centers.length := by
  intro centers
  induction centers with
  | nil => intro st c0; rfl
  | cons c rest ih =>
    intro st c0
    simp only [runBins, List.length_cons]
    rw [ih]

/-- Whatever state the loop reaches a skipped bin in, that bin's entry is the
`NaN` slice with no bootstrap count. -/
theorem runBins_skip_entry (inp : PipeInput) (log10 : ℕ → ℚ) (ρ : ℕ → ℕ)
    (radius : ℚ) :
    ∀ (centers : List ℚ) (st : Option ℕ) (c0 i : ℕ), i < centers.length →
      processedBin inp radius (centers.getD i 0) = false →
      ((runBins inp log10 ρ radius centers st c0).map (fun e => e.1)).getD i BinOut.nan
          = BinOut.nan ∧
      ((runBins inp log10 ρ radius centers st c0).map (fun e => e.2)).getD i none
          = none := by
  intro centers
  induction centers with
  | nil => intro st c0 i hi; simp at hi
  | cons c rest ih =>
    intro st c0 i hi hp
    cases i with
    | zero =>
      simp only [List.getD_cons_zero] at hp
      simp [runBins, processBin_skip inp log10 ρ radius c st c0 hp]
    | succ i =>
      simp only [List.getD_cons_succ] at hp
      simp only [runBins, List.map_cons, List.getD_cons_succ]
      exact ih _ _ i (by simpa using hi) hp

/-- C8: with at least two bin centers, a bin whose direction interval holds no
baseline sample or no controlled sample is skipped: the call still returns
normally, the bin's slice of all sixteen output arrays is `NaN`, and no bootstrap
iteration count is ever resolved for it (no energy-ratio or bootstrap computation
runs). -/
theorem empty_bin_skip (inp : PipeInput) (log10 : ℕ → ℚ) (ρ : ℕ → ℕ)
    (h2 : 2 ≤ inp.bins.length) (i : ℕ) (hi : i < inp.bins.length)
    (hempty :
      (applyMask inp.refPowBase (dirMask inp.wdBase (inp.bins.getD i 0)
        (binRadius inp.bins inp.overlap))).isEmpty = true ∨
      (applyMask inp.refPowCon (dirMask inp.wdCon (inp.bins.getD i 0)
        (binRadius inp.bins inp.overlap))).isEmpty = true) :
    ∃ rep, calculate_balanced_energy_ratio inp log10 ρ = Except.ok rep ∧
      rep.length = inp.bins.length ∧
      rep.getD i BinOut.nan = BinOut.nan ∧
      (usedBootCounts inp log10 ρ).getD i none = none := by
  have hnp : processedBin inp (binRadius inp.bins inp.overlap) (inp.bins.getD i 0)
      = false := by
    rw [processedBin_false_iff]
    rcases hempty with h | h
    · rw [h, Bool.true_or]
    · rw [h, Bool.or_true]
  have hmain := runBins_skip_entry inp log10 ρ (binRadius inp.bins inp.overlap)
    inp.bins inp.nBoostrap 0 i hi hnp
  refine ⟨(runBins inp log10 ρ (binRadius inp.bins inp.overlap) inp.bins
    inp.nBoostrap 0).map (fun e => e.1), ?_, ?_, hmain.1, ?_⟩
  · rw [calculate_balanced_energy_ratio, if_neg (by omega)]
  · rw [List.length_map, runBins_length]
  · rw [usedBootCounts, if_neg (by omega)]
    exact hmain.2

/-- Witness for C8: both regimes' samples point at direction `100`, far outside
the bin centered at `0`. -/
theorem empty_bin_skip_witness :
    (2 ≤ emptyBinInput.bins.length ∧ 0 < emptyBinInput.bins.length ∧
      (applyMask emptyBinInput.refPowBase (dirMask emptyBinInput.wdBase
        (emptyBinInput.bins.getD 0 0)
        (binRadius emptyBinInput.bins emptyBinInput.overlap))).isEmpty = true) ∧
    ∃ rep, calculate_balanced_energy_ratio emptyBinInput log10exact (fun _ => 0)
        = Except.ok rep ∧
      rep.length = emptyBinInput.bins.length ∧
      rep.getD 0 BinOut.nan = BinOut.nan ∧
      (usedBootCounts emptyBinInput log10exact (fun _ => 0)).getD 0 none = none :=
  ⟨⟨by decide, by decide, by with_unfolding_all decide⟩,
   empty_bin_skip emptyBinInput log10exact (fun _ => 0) (by decide) 0 (by decide)
     (Or.inl (by with_unfolding_all decide))⟩

/-- A processed bin resolves its bootstrap iteration count from the incoming
`n_boostrap` local if set, else from its own baseline subset size; the resolved
count is both recorded as used and written back into the local. -/
theorem processBin_run (inp : PipeInput) (log10 : ℕ → ℚ) (ρ : ℕ → ℕ)
    (radius center : ℚ) (nBoot? : Option ℕ) (c0 : ℕ)
    (h : processedBin inp radius center = true) :
    (processBin inp log10 ρ radius center nBoot? c0).2.1
        = some (nBoot?.getD (calculate_bootstrap_iterations log10
            (binLenBase inp radius center))) ∧
    (processBin inp log10 ρ radius center nBoot? c0).2.2.1
        = some (nBoot?.getD (calculate_bootstrap_iterations log10
            (binLenBase inp radius center))) := by
  have hc : ((applyMask inp.refPowBase (dirMask inp.wdBase center radius)).isEmpty
      || (applyMask inp.refPowCon (dirMask inp.wdCon center radius)).isEmpty)
        = false := by
    cases h1 : (applyMask inp.refPowBase (dirMask inp.wdBase center radius)).isEmpty <;>
      cases h2 : (applyMask inp.refPowCon (dirMask inp.wdCon center radius)).isEmpty <;>
        simp [processedBin, h1, h2] at h ⊢
  simp only [processBin]
  rw [if_neg (by simp [hc])]
  cases nBoot? <;> exact ⟨rfl, rfl⟩

/-- Once the `n_boostrap` local holds a value `m`, every later bin either skips
(recording no count) or uses exactly `m`, and the local keeps the value `m`. -/
theorem runBins_state_some (inp : PipeInput) (log10 : ℕ → ℚ) (ρ : ℕ → ℕ)
    (radius : ℚ) :
    ∀ (centers : List ℚ) (m c0 j k : ℕ),
      ((runBins inp log10 ρ radius centers (some m) c0).map (fun e => e.2)).getD
          j none = some k →
      k = m := by
  intro centers
  induction centers with
  | nil => intro m c0 j k h; simp [runBins] at h
  | cons c rest ih =>
    intro m c0 j k h
    by_cases hp : processedBin inp radius c = true
    · rw [runBins, (processBin_run inp log10 ρ radius c (some m) c0 hp).1,
        (processBin_run inp log10 ρ radius c (some m) c0 hp).2] at h
      cases j with
      | zero =>
        simp only [List.map_cons, List.getD_cons_zero, Option.getD_some] at h
        exact (Option.some_injective _ h).symm
      | succ j =>
        simp only [List.map_cons, List.getD_cons_succ, Option.getD_some] at h
        exact ih m _ j k h
    · have hp' : processedBin inp radius c = false := by simpa using hp
      rw [runBins, processBin_skip inp log10 ρ radius c (some m) c0 hp'] at h
      cases j with
      | zero => simp at h
      | succ j =>
        simp only [List.map_cons, List.getD_cons_succ] at h
        exact ih m _ j k h

/-- Starting from an unset `n_boostrap` local, any recorded bootstrap count equals
the count resolved from the baseline subset size of the first processed bin. -/
theorem runBins_state_none (inp : PipeInput) (log10 : ℕ → ℚ) (ρ : ℕ → ℕ)
    (radius : ℚ) :
    ∀ (centers : List ℚ) (c0 j k : ℕ),
      ((runBins inp log10 ρ radius centers none c0).map (fun e => e.2)).getD
          j none = some k →
      ∃ c, centers.find? (processedBin inp radius) = some c ∧
        k = calculate_bootstrap_iterations log10 (binLenBase inp radius c) := by
  intro centers
  induction centers with
  | nil => intro c0 j k h; simp [runBins] at h
  | cons c rest ih =>
    intro c0 j k h
    by_cases hp : processedBin inp radius c = true
    · rw [List.find?_cons_of_pos _ hp]
      refine ⟨c, rfl, ?_⟩
      rw [runBins, (processBin_run inp log10 ρ radius c none c0 hp).1,
        (processBin_run inp log10 ρ radius c none c0 hp).2] at h
      cases j with
      | zero =>
        simp only [List.map_cons, List.getD_cons_zero, Option.getD_none] at h
        exact (Option.some_injective _ h).symm
      | succ j =>
        simp only [List.map_cons, List.getD_cons_succ, Option.getD_none] at h
        exact runBins_state_some inp log10 ρ radius rest _ _ j k h
    · have hp' : processedBin inp radius c = false := by simpa using hp
      rw [List.find?_cons_of_neg _ hp]
      rw [runBins, processBin_skip inp log10 ρ radius c none c0 hp'] at h
      cases j with
      | zero => simp at h
      | succ j =>
        simp only [List.map_cons, List.getD_cons_succ] at h
        exact ih _ j k h

/-- C6: when the caller leaves `n_boostrap` unspecified, whatever bootstrap
iteration count a processed bin records equals the count computed from the
*first* processed bin's baseline subset size — the value resolved there is
carried over to every later bin instead of being recomputed from each bin's own
size. -/
theorem nboot_resolved_once (inp : PipeInput) (log10 : ℕ → ℚ) (ρ : ℕ → ℕ)
    (hnone : inp.nBoostrap = none) (j k : ℕ)
    (hj : (usedBootCounts inp log10 ρ).getD j none = some k) :
    ∃ c, inp.bins.find? (processedBin inp (binRadius inp.bins inp.overlap))
        = some c ∧
      k = calculate_bootstrap_iterations log10
            (binLenBase inp (binRadius inp.bins inp.overlap) c) := by
  rw [usedBootCounts] at hj
  by_cases hlen : inp.bins.length < 2
  · rw [if_pos hlen] at hj
    simp at hj
  · rw [if_neg hlen, hnone] at hj
    exact runBins_state_none inp log10 ρ _ inp.bins 0 j k hj

/-- Witness for C6: in `carryOverInput` the first bin's baseline subset has one
sample (count `3000` under `carryOverLog`), the second bin's has two (which alone
would resolve to `10000`), yet the second bin records `3000`. -/
theorem nboot_resolved_once_witness :
    (carryOverInput.nBoostrap = none ∧
     (usedBootCounts carryOverInput carryOverLog (fun _ => 0)).getD 1 none
        = some 3000) ∧
    ∃ c, carryOverInput.bins.find?
          (processedBin carryOverInput
            (binRadius carryOverInput.bins carryOverInput.overlap)) = some c ∧
      3000 = calculate_bootstrap_iterations carryOverLog
        (binLenBase carryOverInput
          (binRadius carryOverInput.bins carryOverInput.overlap) c) := by
  have hrad : binRadius carryOverInput.bins carryOverInput.overlap = 5 := by
    with_unfolding_all decide
  have h0 : processedBin carryOverInput 5 0 = true := by
    with_unfolding_all decide
  have h1 : processedBin carryOverInput 5 10 = true := by
    with_unfolding_all decide
  have hcalc : calculate_bootstrap_iterations carryOverLog
      (binLenBase carryOverInput 5 0) = 3000 := by
    with_unfolding_all decide
  have hbins : carryOverInput.bins = [0, 10] := rfl
  have hnb : carryOverInput.nBoostrap = none := rfl
  have hj : (usedBootCounts carryOverInput carryOverLog (fun _ => 0)).getD 1 none
      = some 3000 := by
    rw [usedBootCounts, if_neg (by decide), hrad, hbins, hnb]
    rw [runBins, (processBin_run carryOverInput carryOverLog (fun _ => 0) 5 0
      none 0 h0).2]
    simp only [Option.getD_none, hcalc]
    rw [runBins, (processBin_run carryOverInput carryOverLog (fun _ => 0) 5 10
      (some 3000) _ h1).1]
    simp [Option.getD_some, runBins]
  exact ⟨⟨rfl, hj⟩,
    nboot_resolved_once carryOverInput carryOverLog (fun _ => 0) rfl 1 3000 hj⟩

/-- A non-empty replicate list is not empty. -/
theorem replicate_isEmpty_false {α : Type} {n : ℕ} {a : α} (h : 0 < n) :
    (List.replicate n a).isEmpty = false := by
  cases n with
  | zero => omega
  | succ m => simp [List.replicate_succ]

/-- Resampling-with-replacement from constant arrays reproduces the constant
arrays, whatever the random draws: every bootstrap iteration computes the very
same energy ratio. -/
theorem bootstrapSamples_replicate {nb nc : ℕ} (hnb : 0 < nb) (hnc : 0 < nc)
    (a b : ℚ) (u : ℕ) (a2 b2 : ℚ) (u2 : ℕ) (ρ : ℕ → ℕ) (c0 k : ℕ) :
    bootstrapSamples (List.replicate nb a) (List.replicate nb b)
      (List.replicate nb u) (List.replicate nc a2) (List.replicate nc b2)
      (List.replicate nc u2) ρ c0 k
    = List.replicate k (energy_ratio (List.replicate nb a) (List.replicate nb b)
        (List.replicate nb u) (List.replicate nc a2) (List.replicate nc b2)
        (List.replicate nc u2)) := by
  unfold bootstrapSamples
  rw [List.map_congr_left (g := fun _ =>
    energy_ratio (List.replicate nb a) (List.replicate nb b)
      (List.replicate nb u) (List.replicate nc a2) (List.replicate nc b2)
      (List.replicate nc u2)) ?_, mapRange_const]
  intro t _
  dsimp only
  rw [List.length_replicate, List.length_replicate]
  rw [sampleAt_replicate (drawIdx_lt hnb ρ _), drawIdx_length,
    sampleAt_replicate (drawIdx_lt hnb ρ _), drawIdx_length,
    sampleAt_replicate (drawIdx_lt hnb ρ _), drawIdx_length,
    sampleAt_replicate (drawIdx_lt hnc ρ _), drawIdx_length,
    sampleAt_replicate (drawIdx_lt hnc ρ _), drawIdx_length,
    sampleAt_replicate (drawIdx_lt hnc ρ _), drawIdx_length]

/-- A bin whose six masked arrays are constant (and whose regimes are non-empty)
gets a degenerate bootstrap distribution: with `confidence = 95` and `n_boostrap`
unspecified, both interval bounds of all four statistics coincide with the point
estimates. -/
theorem processBin_const (inp : PipeInput) (log10 : ℕ → ℚ) (ρ : ℕ → ℕ)
    (radius center : ℚ) (c0 : ℕ) (nb nc : ℕ) (a b u a2 b2 u2 : ℚ) (r : ERResult)
    (hra : applyMask inp.refPowBase (dirMask inp.wdBase center radius)
      = List.replicate nb a)
    (hta : applyMask inp.testPowBase (dirMask inp.wdBase center radius)
      = List.replicate nb b)
    (hwa : applyMask inp.wsBase (dirMask inp.wdBase center radius)
      = List.replicate nb u)
    (hrc : applyMask inp.refPowCon (dirMask inp.wdCon center radius)
      = List.replicate nc a2)
    (htc : applyMask inp.testPowCon (dirMask inp.wdCon center radius)
      = List.replicate nc b2)
    (hwc : applyMask inp.wsCon (dirMask inp.wdCon center radius)
      = List.replicate nc u2)
    (hnb : 0 < nb) (hnc : 0 < nc) (hconf : inp.confidence = 95)
    (her : energy_ratio (List.replicate nb a) (List.replicate nb b)
      (List.replicate nb (toBucket u)) (List.replicate nc a2)
      (List.replicate nc b2) (List.replicate nc (toBucket u2)) = some r) :
    processBin inp log10 ρ radius center none c0 =
      ({ ratioBase := some r.ratioBase, lowerRatioBase := some r.ratioBase,
         upperRatioBase := some r.ratioBase,
         countsRatioBase := some (r.countsBase : ℚ),
         ratioCon := some r.ratioCon, lowerRatioCon := some r.ratioCon,
         upperRatioCon := some r.ratioCon,
         countsRatioCon := some (r.countsCon : ℚ),
         diff := some r.ratioDiff, lowerDiff := some r.ratioDiff,
         upperDiff := some r.ratioDiff, countsDiff := some (r.countsDiff : ℚ),
         pChange := some r.pChange, lowerPChange := some r.pChange,
         upperPChange := some r.pChange,
         countsPChange := some (r.countsPchange : ℚ) },
       some (calculate_bootstrap_iterations log10 nb),
       some (calculate_bootstrap_iterations log10 nb),
       c0 + (calculate_bootstrap_iterations log10 nb) * (nb + nc)) := by
  have hk := calculate_bootstrap_iterations_pos log10 nb
  have hq1 : (0 : ℚ) ≤ 50 + 0.5 * 95 := by norm_num
  have hq2 : (50 : ℚ) + 0.5 * 95 ≤ 100 := by norm_num
  have hq3 : (0 : ℚ) ≤ 50 - 0.5 * 95 := by norm_num
  have hq4 : (50 : ℚ) - 0.5 * 95 ≤ 100 := by norm_num
  simp only [processBin, hra, hta, hwa, hrc, htc, hwc,
    replicate_isEmpty_false hnb, replicate_isEmpty_false hnc, Bool.or_self,
    Bool.false_eq_true, if_false, List.map_replicate, List.length_replicate,
    her, hconf]
  rw [bootstrapSamples_replicate hnb hnc]
  rw [her]
  simp only [List.map_replicate, Option.map_some', seqO_replicate,
    calculate_lower_and_upper_bound, get_confidence_bounds,
    percentile_replicate hk hq1 hq2, percentile_replicate hk hq3 hq4]

/-- C2 (counterexample): on the specification's end-to-end example input — whose
`wind_direction_bins` is the single-element `[270]` — the call does not return the
claimed statistics at all: the radius computation `wind_direction_bins[1]` raises
`IndexError`. -/
theorem balanced_ratio_example_single_bin_errors :
    calculate_balanced_energy_ratio exampleSingleBin log10exact (fun _ => 0)
      = Except.error PipeError.indexOutOfBounds := by
  rw [calculate_balanced_energy_ratio, if_pos (by decide)]

/-- C2 (amended): with the example's bin list amended to the two centers
`[270, 271]`, the first bin's outputs are `ratio_base = 0.5`, `ratio_con = 0.55`,
`diff = 0.05`, `pct_change = 10`, `counts_base = counts_con = 10`, and — whatever
the random draws and whatever value `np.log10` takes — every confidence bound
collapses onto its point estimate; the second bin is empty and stays `NaN`. -/
theorem balanced_ratio_example_two_bins (log10 : ℕ → ℚ) (ρ : ℕ → ℕ) :
    calculate_balanced_energy_ratio exampleTwoBins log10 ρ
      = Except.ok [exampleBinOut, BinOut.nan] := by
  have hrad : binRadius exampleTwoBins.bins exampleTwoBins.overlap = 1/2 := by
    with_unfolding_all decide
  have hra : applyMask exampleTwoBins.refPowBase
      (dirMask exampleTwoBins.wdBase 270 (1/2)) = List.replicate 10 100 := by
    with_unfolding_all decide
  have hta : applyMask exampleTwoBins.testPowBase
      (dirMask exampleTwoBins.wdBase 270 (1/2)) = List.replicate 10 50 := by
    with_unfolding_all decide
  have hwa : applyMask exampleTwoBins.wsBase
      (dirMask exampleTwoBins.wdBase 270 (1/2)) = List.replicate 10 8 := by
    with_unfolding_all decide
  have hrc : applyMask exampleTwoBins.refPowCon
      (dirMask exampleTwoBins.wdCon 270 (1/2)) = List.replicate 10 100 := by
    with_unfolding_all decide
  have htc : applyMask exampleTwoBins.testPowCon
      (dirMask exampleTwoBins.wdCon 270 (1/2)) = List.replicate 10 55 := by
    with_unfolding_all decide
  have hwc : applyMask exampleTwoBins.wsCon
      (dirMask exampleTwoBins.wdCon 270 (1/2)) = List.replicate 10 8 := by
    with_unfolding_all decide
  have her : energy_ratio (List.replicate 10 100) (List.replicate 10 50)
      (List.replicate 10 (toBucket 8)) (List.replicate 10 100)
      (List.replicate 10 55) (List.replicate 10 (toBucket 8))
      = some ⟨1/2, 11/20, 1/20, 10, 10, 10, 10, 10⟩ := by
    with_unfolding_all decide
  have hskip : processedBin exampleTwoBins (1/2) 271 = false := by
    with_unfolding_all decide
  have hskipEq : ∀ (st : Option ℕ) (c : ℕ),
      processBin exampleTwoBins log10 ρ (1/2) 271 st c = (BinOut.nan, none, st, c) :=
    fun st c => processBin_skip exampleTwoBins log10 ρ (1/2) 271 st c hskip
  have hconst := processBin_const exampleTwoBins log10 ρ (1/2) 270 0 10 10
    100 50 8 100 55 8 ⟨1/2, 11/20, 1/20, 10, 10, 10, 10, 10⟩
    hra hta hwa hrc htc hwc (by norm_num) (by norm_num) rfl her
  have hbins : exampleTwoBins.bins = [270, 271] := rfl
  have hnb : exampleTwoBins.nBoostrap = none := rfl
  rw [calculate_balanced_energy_ratio, if_neg (by decide), hrad, hbins, hnb]
  simp only [runBins, hconst, hskipEq]
  simp [exampleBinOut, BinOut.nan]
